import Mathlib

/-!
# Tick counter and PWM ramp scheduler of the STM32F401RE firmware

Shallow embedding of `app/src/core/system.c` (the SysTick counter) and of the
body of `main` in `app/src/firmware.c` (the duty-cycle ramp), followed by the
properties of the timekeeping and scheduling core.

* `uint64_t` values are natural numbers below `2 ^ 64`; every arithmetic
  operation of the source on them is written with an explicit `% 2 ^ 64`.
* `float` values are IEEE 754 binary32 values, see `F32`.
* The interrupt context is modelled by the number of `sys_tick_handler`
  invocations that are delivered between two consecutive reads of `ticks`
  by the main context. A read of `ticks` and the update `ticks++` are each
  taken as one access of the 64 bit object, as the C source writes them.
-/

namespace Firmware

/-! ## binary32 arithmetic used by `main` -/

/-- A binary32 value. Every finite binary32 number is an integer multiple of
`2 ^ (-149)` (the smallest subnormal), so a finite value is stored as a sign and
a magnitude counted in units of `2 ^ (-149)`. -/
inductive F32 where
  | fin (neg : Bool) (mag : Nat)
  | inf (neg : Bool)
  | nan
  deriving DecidableEq

namespace F32

/-- Number of units of `2 ^ (-149)` in `1.0`. -/
def unit : Nat := 2 ^ 149

/-- First magnitude that is too large for a finite binary32 (`2 ^ 128`, in
units of `2 ^ (-149)`). -/
def overflowMag : Nat := 2 ^ 128 * unit

/-- The binary32 value of a small natural number literal such as `100.0f`
(exact for `n < 2 ^ 24`). -/
def ofNat (n : Nat) : F32 := fin false (n * unit)

/-- Literal `0.0f`. -/
def zero : F32 := ofNat 0

/-- Literal `1.0f`. -/
def one : F32 := ofNat 1

/-- Literal `100.0f`. -/
def hundred : F32 := ofNat 100

/-- Number of low-order bits of a magnitude that do not fit a 24 bit
significand: the least `k` with `n / 2 ^ k < 2 ^ 24`. The exact sum of two finite
binary32 values is below `2 ^ 278` units, for which `k ≤ 254`. -/
def excessBits (n : Nat) : Nat :=
  ((List.range 254).find? (fun k => decide (n / 2 ^ k < 2 ^ 24))).getD 254

/-- Round a magnitude to a 24 bit significand, round-to-nearest, ties-to-even
(the default IEEE 754 rounding mode). Magnitudes below `2 ^ 24` units are
subnormal or have exponent `-126` and are exact. -/
def roundMag (n : Nat) : Nat :=
  if n < 2 ^ 24 then n
  else
    let k := excessBits n
    let q := n / 2 ^ k
    let r := n % 2 ^ k
    let half := 2 ^ (k - 1)
    if half < r ∨ (r = half ∧ q % 2 = 1) then (q + 1) * 2 ^ k else q * 2 ^ k

/-- Signed value of a finite number in units of `2 ^ (-149)`. -/
def signed (neg : Bool) (mag : Nat) : Int :=
  if neg then -(mag : Int) else (mag : Int)

/-- Result of rounding an exact non-zero sum `s` (in units of `2 ^ (-149)`). -/
def roundInt (s : Int) : F32 :=
  let m := roundMag s.natAbs
  if overflowMag ≤ m then inf (decide (s < 0)) else fin (decide (s < 0)) m

/-- The binary32 addition `a + b`. -/
def add : F32 → F32 → F32
  | nan, _ => nan
  | _, nan => nan
  | inf s, inf t => if s = t then inf s else nan
  | inf s, fin _ _ => inf s
  | fin _ _, inf t => inf t
  | fin s m, fin t n =>
    let e := signed s m + signed t n
    if e = 0 then fin (s && t) 0 else roundInt e

/-- Position of a non-NaN value on the extended number line, in units of
`2 ^ (-149)`. -/
def key : F32 → Int
  | fin s m => signed s m
  | inf s => signed s overflowMag
  | nan => 0

/-- Whether the value is a NaN. -/
def isNaN : F32 → Bool
  | nan => true
  | _ => false

/-- The binary32 comparison `a > b` (false when either operand is a NaN). -/
def gt (a b : F32) : Bool :=
  !a.isNaN && !b.isNaN && decide (b.key < a.key)

/-- The binary32 comparison `a <= b` (false when either operand is a NaN). -/
def le (a b : F32) : Bool :=
  !a.isNaN && !b.isNaN && decide (a.key ≤ b.key)

end F32

/-! ## `core/system.c`: the SysTick counter -/

/-- The file-scope state of `core/system.c`: `static volatile uint64_t ticks`. -/
structure System where
  ticks : Nat
  deriving DecidableEq

/-- State at power-on: `ticks = 0`. -/
def System.boot : System := { ticks := 0 }

/-- The interrupt handler `sys_tick_handler`: `ticks++` on a `uint64_t`. -/
def sys_tick_handler (s : System) : System :=
  { ticks := (s.ticks + 1) % 2 ^ 64 }

/-- The reader `system_get_ticks`: `return ticks;`. The result is the returned
value together with the state after the call. -/
def system_get_ticks (s : System) : Nat × System :=
  (s.ticks, s)

/-- What can happen to the counter: a SysTick interrupt, or a call of
`system_get_ticks` from the main context. -/
inductive Event where
  | tick
  | read
  deriving DecidableEq

/-- One event applied to the counter state and to the list of the values
returned by the reads so far (oldest first). -/
def step (c : System × List Nat) : Event → System × List Nat
  | Event.tick => (sys_tick_handler c.1, c.2)
  | Event.read => ((system_get_ticks c.1).2, c.2 ++ [(system_get_ticks c.1).1])

/-- A sequence of events applied to a counter state. -/
def run (s : System) (es : List Event) : System × List Nat :=
  es.foldl step (s, [])

/-- Number of `sys_tick_handler` invocations in a sequence of events. -/
def tickCount (es : List Event) : Nat :=
  es.count Event.tick

/-- The handler `sys_tick_handler` invoked `n` times in a row. -/
def deliver : Nat → System → System
  | 0, s => s
  | n + 1, s => deliver n (sys_tick_handler s)

/-! ## `firmware.c`: the ramp loop of `main` -/

/-- The `uint64_t` subtraction `a - b`. -/
def sub64 (a b : Nat) : Nat :=
  (a + 2 ^ 64 - b) % 2 ^ 64

/-- The loop condition `system_get_ticks() - start_time >= 10`, on the value
`now` returned by `system_get_ticks()`. -/
def ramp_due (now start_time : Nat) : Bool :=
  decide (10 ≤ sub64 now start_time)

/-- The update of `duty_cycle` in the loop body:
`duty_cycle += 1.0f; if (duty_cycle > 100.0f) duty_cycle = 0.0f;`. -/
def ramp_step (d : F32) : F32 :=
  if F32.gt (F32.add d F32.one) F32.hundred then F32.zero else F32.add d F32.one

/-- The state of `main` while it runs: the counter it shares with the interrupt,
its locals `start_time` and `duty_cycle`, and two traces: the arguments of
the calls of `timer_pwm_set_duty_cycle` made so far and the tick values that
were compared in the loop condition of the iterations that fired, both oldest
first. -/
structure Main where
  sys : System
  start_time : Nat
  duty_cycle : F32
  pwm : List F32
  fired : List Nat
  deriving DecidableEq

/-- One iteration of `while (1)`. `n1` SysTick interrupts are delivered before
the read of the counter in the loop condition, and `n2` between that read and
the read that is stored in `start_time`. -/
def loop_iteration (n1 n2 : Nat) (m : Main) : Main :=
  let r1 := system_get_ticks (deliver n1 m.sys)
  if ramp_due r1.1 m.start_time then
    let d := ramp_step m.duty_cycle
    let r2 := system_get_ticks (deliver n2 r1.2)
    { sys := r2.2
      start_time := r2.1
      duty_cycle := d
      pwm := m.pwm ++ [d]
      fired := m.fired ++ [r1.1] }
  else
    { m with sys := r1.2 }

/-- The body of `main` up to the loop, started at power-on: `n0` SysTick
interrupts are delivered before `start_time = system_get_ticks()`, then
`duty_cycle = 0.0f` and `timer_pwm_set_duty_cycle(duty_cycle)`. -/
def main_init (n0 : Nat) : Main :=
  let r := system_get_ticks (deliver n0 System.boot)
  { sys := r.2
    start_time := r.1
    duty_cycle := F32.zero
    pwm := [F32.zero]
    fired := [] }

/-- The function `main` run for `sched.length` iterations of its loop; the
entry `(n1, n2)` of `sched` gives the interrupts delivered in that iteration. -/
def main_run (n0 : Nat) (sched : List (Nat × Nat)) : Main :=
  sched.foldl (fun m p => loop_iteration p.1 p.2 m) (main_init n0)

/-- Total number of interrupts in a schedule of loop iterations. -/
def totalTicks (sched : List (Nat × Nat)) : Nat :=
  (sched.map (fun p => p.1 + p.2)).sum

/-- The values `duty_cycle` can take in `main`: `0.0f` and whatever the loop
body makes of such a value. -/
inductive DutyReachable : F32 → Prop where
  | init : DutyReachable F32.zero
  | step {d : F32} : DutyReachable d → DutyReachable (ramp_step d)

/-- The loop body applied `k` times to a duty cycle. -/
def ramp_steps : Nat → F32 → F32
  | 0, d => d
  | k + 1, d => ramp_steps k (ramp_step d)

/-- The same poll repeated `j` times with no interrupt in between. -/
def polls (n2 : Nat) : Nat → Main → Main
  | 0, m => m
  | j + 1, m => polls n2 j (loop_iteration 0 n2 m)

/-- The power-on scenario of the specification: counter 0, checkpoint 0, duty
cycle `0.0f`, and the initial call of `timer_pwm_set_duty_cycle` made. -/
def scenario : Main := main_init 0

/-- A state whose counter stands at 10 with the checkpoint still at 0. -/
def scenarioAtTen : Main :=
  { sys := { ticks := 10 }
    start_time := 0
    duty_cycle := F32.zero
    pwm := [F32.zero]
    fired := [] }

/-- The facts about the checkpoint that hold throughout an execution of `main`
in which the counter does not wrap. -/
def CheckpointInv (m : Main) : Prop :=
  m.start_time ≤ m.sys.ticks ∧
    (∀ x ∈ m.fired.getLast?, x ≤ m.start_time) ∧
    List.Chain' (fun a b => a + 10 ≤ b) m.fired

open F32

/-! ## Auxiliary facts -/

theorem ramp_step_ofNat (k : Nat) (hk : k ≤ 100) :
    ramp_step (ofNat k) = if 100 < k + 1 then ofNat 0 else ofNat (k + 1) := by
  interval_cases k <;> decide

theorem ofNat_range (k : Nat) (hk : k ≤ 100) :
    F32.le zero (ofNat k) = true ∧ F32.le (ofNat k) hundred = true := by
  interval_cases k <;> decide

theorem ramp_target_le (k : Nat) :
    (if 100 < k + 1 then 0 else k + 1) ≤ 100 := by
  split <;> omega

theorem ramp_step_ofNat_eq (k : Nat) (hk : k ≤ 100) :
    ramp_step (ofNat k) = ofNat (if 100 < k + 1 then 0 else k + 1) := by
  rw [ramp_step_ofNat k hk]
  split <;> rfl

theorem dutyReachable_ofNat {d : F32} (h : DutyReachable d) :
    ∃ k, k ≤ 100 ∧ d = ofNat k := by
  induction h with
  | init => exact ⟨0, by omega, rfl⟩
  | step _ ih =>
    obtain ⟨k, hk, rfl⟩ := ih
    exact ⟨_, ramp_target_le k, ramp_step_ofNat_eq k hk⟩

theorem ramp_steps_succ (j : Nat) (d : F32) :
    ramp_steps (j + 1) d = ramp_steps j (ramp_step d) := rfl

theorem ramp_steps_ofNat : ∀ j i, i ≤ 100 → i + j ≤ 101 →
    ramp_steps j (ofNat i) = ofNat (if i + j = 101 then 0 else i + j) := by
  intro j
  induction j with
  | zero =>
    intro i hi _
    have : ¬ (i = 101) := by omega
    rw [Nat.add_zero, if_neg this]
    rfl
  | succ j ih =>
    intro i hi hij
    rw [ramp_steps_succ, ramp_step_ofNat_eq i hi]
    by_cases h1 : 100 < i + 1
    · have hi100 : i = 100 := by omega
      have hj : j = 0 := by omega
      subst hi100 hj
      rfl
    · rw [if_neg h1, ih (i + 1) (by omega) (by omega)]
      have : i + 1 + j = i + (j + 1) := by omega
      rw [this]

theorem deliver_ticks (n : Nat) (s : System) (h : s.ticks + n < 2 ^ 64) :
    (deliver n s).ticks = s.ticks + n := by
  induction n generalizing s with
  | zero => rfl
  | succ n ih =>
    have h1 : (sys_tick_handler s).ticks = s.ticks + 1 := by
      show (s.ticks + 1) % 2 ^ 64 = s.ticks + 1
      exact Nat.mod_eq_of_lt (by omega)
    show (deliver n (sys_tick_handler s)).ticks = s.ticks + (n + 1)
    rw [ih (sys_tick_handler s) (by omega), h1]
    omega

theorem deliver_ticks_mod (n : Nat) (s : System) (h : s.ticks < 2 ^ 64) :
    (deliver n s).ticks = (s.ticks + n) % 2 ^ 64 := by
  induction n generalizing s with
  | zero => exact (Nat.mod_eq_of_lt h).symm
  | succ n ih =>
    show (deliver n (sys_tick_handler s)).ticks = (s.ticks + (n + 1)) % 2 ^ 64
    rw [ih (sys_tick_handler s) (Nat.mod_lt _ (by norm_num))]
    show ((s.ticks + 1) % 2 ^ 64 + n) % 2 ^ 64 = (s.ticks + (n + 1)) % 2 ^ 64
    omega

theorem loop_iteration_of_due (n1 n2 : Nat) (m : Main)
    (h : ramp_due (deliver n1 m.sys).ticks m.start_time = true) :
    loop_iteration n1 n2 m =
      { sys := deliver n2 (deliver n1 m.sys)
        start_time := (deliver n2 (deliver n1 m.sys)).ticks
        duty_cycle := ramp_step m.duty_cycle
        pwm := m.pwm ++ [ramp_step m.duty_cycle]
        fired := m.fired ++ [(deliver n1 m.sys).ticks] } := by
  simp [loop_iteration, system_get_ticks, h]

theorem loop_iteration_of_not_due (n1 n2 : Nat) (m : Main)
    (h : ramp_due (deliver n1 m.sys).ticks m.start_time = false) :
    loop_iteration n1 n2 m = { m with sys := deliver n1 m.sys } := by
  simp [loop_iteration, system_get_ticks, h]

theorem loop_iteration_duty_pwm (n1 n2 : Nat) (m : Main)
    (hd : ∃ k, k ≤ 100 ∧ m.duty_cycle = ofNat k)
    (hp : ∀ x ∈ m.pwm, ∃ k, k ≤ 100 ∧ x = ofNat k) :
    (∃ k, k ≤ 100 ∧ (loop_iteration n1 n2 m).duty_cycle = ofNat k) ∧
      ∀ x ∈ (loop_iteration n1 n2 m).pwm, ∃ k, k ≤ 100 ∧ x = ofNat k := by
  cases hdue : ramp_due (deliver n1 m.sys).ticks m.start_time with
  | false =>
    rw [loop_iteration_of_not_due n1 n2 m hdue]
    exact ⟨hd, hp⟩
  | true =>
    rw [loop_iteration_of_due n1 n2 m hdue]
    obtain ⟨k, hk, hdk⟩ := hd
    have hnew : ∃ j, j ≤ 100 ∧ ramp_step m.duty_cycle = ofNat j :=
      ⟨_, ramp_target_le k, by rw [hdk]; exact ramp_step_ofNat_eq k hk⟩
    refine ⟨hnew, ?_⟩
    intro x hx
    rcases List.mem_append.mp hx with h | h
    · exact hp x h
    · rw [List.mem_singleton.mp h]
      exact hnew

theorem foldl_duty_pwm (sched : List (Nat × Nat)) (m : Main)
    (hd : ∃ k, k ≤ 100 ∧ m.duty_cycle = ofNat k)
    (hp : ∀ x ∈ m.pwm, ∃ k, k ≤ 100 ∧ x = ofNat k) :
    (∃ k, k ≤ 100 ∧
        (sched.foldl (fun m p => loop_iteration p.1 p.2 m) m).duty_cycle = ofNat k) ∧
      ∀ x ∈ (sched.foldl (fun m p => loop_iteration p.1 p.2 m) m).pwm,
        ∃ k, k ≤ 100 ∧ x = ofNat k := by
  induction sched generalizing m with
  | nil => exact ⟨hd, hp⟩
  | cons p rest ih =>
    rw [List.foldl_cons]
    exact ih _ (loop_iteration_duty_pwm p.1 p.2 m hd hp).1
      (loop_iteration_duty_pwm p.1 p.2 m hd hp).2

theorem sub64_wrap (C e : Nat) (hC : C < 2 ^ 64) (he : e < 2 ^ 64) :
    sub64 ((C + e) % 2 ^ 64) C = e := by
  unfold sub64
  omega

theorem step_fst_ticks_lt (c : System × List Nat) (e : Event) (h : c.1.ticks < 2 ^ 64) :
    (step c e).1.ticks < 2 ^ 64 := by
  cases e with
  | tick => exact Nat.mod_lt _ (by norm_num)
  | read => exact h

theorem tickCount_cons_tick (es : List Event) :
    tickCount (Event.tick :: es) = tickCount es + 1 := by
  simp [tickCount]

theorem tickCount_cons_read (es : List Event) :
    tickCount (Event.read :: es) = tickCount es := by
  simp [tickCount]

theorem tickCount_append (es1 es2 : List Event) :
    tickCount (es1 ++ es2) = tickCount es1 + tickCount es2 := by
  simp [tickCount]

theorem foldl_step_ticks_mod (es : List Event) (c : System × List Nat)
    (h : c.1.ticks < 2 ^ 64) :
    (es.foldl step c).1.ticks = (c.1.ticks + tickCount es) % 2 ^ 64 := by
  induction es generalizing c with
  | nil => exact (Nat.mod_eq_of_lt h).symm
  | cons e es ih =>
    rw [List.foldl_cons, ih _ (step_fst_ticks_lt c e h)]
    cases e with
    | tick =>
      rw [tickCount_cons_tick]
      show ((c.1.ticks + 1) % 2 ^ 64 + tickCount es) % 2 ^ 64 = _
      omega
    | read =>
      rw [tickCount_cons_read]
      rfl

theorem foldl_step_ticks (es : List Event) (c : System × List Nat)
    (h : c.1.ticks + tickCount es < 2 ^ 64) :
    (es.foldl step c).1.ticks = c.1.ticks + tickCount es := by
  rw [foldl_step_ticks_mod es c (by omega)]
  exact Nat.mod_eq_of_lt h

theorem foldl_step_reads (es : List Event) (c : System × List Nat)
    (h : c.1.ticks + tickCount es < 2 ^ 64)
    (hp : List.Pairwise (fun a b => a ≤ b) c.2)
    (hb : ∀ x ∈ c.2, x ≤ c.1.ticks) :
    List.Pairwise (fun a b => a ≤ b) (es.foldl step c).2 := by
  induction es generalizing c with
  | nil => exact hp
  | cons e es ih =>
    rw [List.foldl_cons]
    cases e with
    | tick =>
      rw [tickCount_cons_tick] at h
      have ht : (step c Event.tick).1.ticks = c.1.ticks + 1 :=
        Nat.mod_eq_of_lt (by omega)
      refine ih _ (by rw [ht]; omega) hp ?_
      intro x hx
      rw [ht]
      exact Nat.le_succ_of_le (hb x hx)
    | read =>
      rw [tickCount_cons_read] at h
      refine ih _ h ?_ ?_
      · show List.Pairwise _ (c.2 ++ [c.1.ticks])
        rw [List.pairwise_append]
        refine ⟨hp, List.pairwise_singleton _ _, ?_⟩
        intro a ha b hb2
        rw [List.mem_singleton.mp hb2]
        exact hb a ha
      · intro x hx
        rcases List.mem_append.mp hx with h1 | h1
        · exact hb x h1
        · rw [List.mem_singleton.mp h1]
          exact Nat.le_refl _

theorem totalTicks_cons (p : Nat × Nat) (sched : List (Nat × Nat)) :
    totalTicks (p :: sched) = p.1 + p.2 + totalTicks sched := by
  simp [totalTicks]

theorem totalTicks_append (s1 s2 : List (Nat × Nat)) :
    totalTicks (s1 ++ s2) = totalTicks s1 + totalTicks s2 := by
  simp [totalTicks]

theorem sub64_of_le (a b : Nat) (hab : b ≤ a) (ha : a < 2 ^ 64) : sub64 a b = a - b := by
  unfold sub64
  omega

theorem loop_iteration_inv (n1 n2 : Nat) (m : Main) (hI : CheckpointInv m)
    (hw : m.sys.ticks + (n1 + n2) < 2 ^ 64) :
    CheckpointInv (loop_iteration n1 n2 m) ∧
      (loop_iteration n1 n2 m).sys.ticks ≤ m.sys.ticks + (n1 + n2) := by
  obtain ⟨h1, h2, h3⟩ := hI
  have hnow : (deliver n1 m.sys).ticks = m.sys.ticks + n1 :=
    deliver_ticks n1 m.sys (by omega)
  cases hdue : ramp_due (deliver n1 m.sys).ticks m.start_time with
  | false =>
    rw [loop_iteration_of_not_due n1 n2 m hdue]
    refine ⟨⟨?_, h2, h3⟩, ?_⟩
    · show m.start_time ≤ (deliver n1 m.sys).ticks
      omega
    · show (deliver n1 m.sys).ticks ≤ _
      omega
  | true =>
    rw [loop_iteration_of_due n1 n2 m hdue]
    have hnow2 : (deliver n2 (deliver n1 m.sys)).ticks = m.sys.ticks + n1 + n2 := by
      rw [deliver_ticks n2 _ (by omega), hnow]
    have hge : m.start_time + 10 ≤ (deliver n1 m.sys).ticks := by
      have hd : 10 ≤ sub64 (deliver n1 m.sys).ticks m.start_time := by
        simpa [ramp_due] using hdue
      rw [sub64_of_le _ _ (by omega) (by omega)] at hd
      omega
    refine ⟨⟨Nat.le_refl _, ?_, ?_⟩, ?_⟩
    · intro x hx
      have hx2 : x = (deliver n1 m.sys).ticks := by simpa using hx.symm
      show x ≤ (deliver n2 (deliver n1 m.sys)).ticks
      omega
    · show List.Chain' _ (m.fired ++ [(deliver n1 m.sys).ticks])
      rw [List.chain'_append]
      refine ⟨h3, List.chain'_singleton _, ?_⟩
      intro x hx y hy
      have hy2 : y = (deliver n1 m.sys).ticks := by simpa using hy.symm
      have := h2 x hx
      omega
    · show (deliver n2 (deliver n1 m.sys)).ticks ≤ _
      omega

theorem foldl_inv (sched : List (Nat × Nat)) (m : Main) (hI : CheckpointInv m)
    (hw : m.sys.ticks + totalTicks sched < 2 ^ 64) :
    CheckpointInv (sched.foldl (fun m p => loop_iteration p.1 p.2 m) m) ∧
      (sched.foldl (fun m p => loop_iteration p.1 p.2 m) m).sys.ticks ≤
        m.sys.ticks + totalTicks sched := by
  induction sched generalizing m with
  | nil => exact ⟨hI, Nat.le_add_right _ _⟩
  | cons p rest ih =>
    rw [totalTicks_cons] at hw
    have hstep := loop_iteration_inv p.1 p.2 m hI (by omega)
    rw [List.foldl_cons, totalTicks_cons]
    have hrest := ih (loop_iteration p.1 p.2 m) hstep.1 (by omega)
    exact ⟨hrest.1, by omega⟩

theorem main_init_inv (n0 : Nat) (h : n0 < 2 ^ 64) :
    CheckpointInv (main_init n0) ∧ (main_init n0).sys.ticks = n0 := by
  have ht : (deliver n0 System.boot).ticks = n0 := by
    rw [deliver_ticks n0 System.boot (by show 0 + n0 < 2 ^ 64; omega)]
    show 0 + n0 = n0
    omega
  refine ⟨⟨Nat.le_refl _, ?_, List.chain'_nil⟩, ht⟩
  intro x hx
  cases hx

/-! ## The ramp scheduler -/

/-- C1. When the tick value read in the loop condition is at least 10 past the
checkpoint (in `uint64_t` arithmetic) and the duty cycle is one that is
reachable from `0.0f`, the iteration makes exactly one call of
`timer_pwm_set_duty_cycle`; its argument is the value the loop body computes,
which is exactly `d + 1`, or `0` when `d + 1` exceeds `100`; and `duty_cycle`
holds that argument afterwards. -/
theorem ramp_step_fires_at_threshold (m : Main) (n1 n2 : Nat)
    (hd : DutyReachable m.duty_cycle)
    (hdue : 10 ≤ sub64 (system_get_ticks (deliver n1 m.sys)).1 m.start_time) :
    ∃ k arg, k ≤ 100 ∧ m.duty_cycle = ofNat k ∧
      arg = (if 100 < k + 1 then ofNat 0 else ofNat (k + 1)) ∧
      arg = (if F32.gt (F32.add m.duty_cycle one) hundred then zero
              else F32.add m.duty_cycle one) ∧
      (loop_iteration n1 n2 m).pwm = m.pwm ++ [arg] ∧
      (loop_iteration n1 n2 m).duty_cycle = arg := by
  obtain ⟨k, hk, hdk⟩ := dutyReachable_ofNat hd
  have hdue2 : ramp_due (deliver n1 m.sys).ticks m.start_time = true := by
    simpa [ramp_due, system_get_ticks] using hdue
  refine ⟨k, ramp_step m.duty_cycle, hk, hdk, ?_, rfl, ?_, ?_⟩
  · rw [hdk]
    exact ramp_step_ofNat k hk
  · rw [loop_iteration_of_due n1 n2 m hdue2]
  · rw [loop_iteration_of_due n1 n2 m hdue2]

/-- Witness for C1: checkpoint 0, duty cycle `0.0f`, ten tick events, so the
compared value is 10 and the one call has argument `1.0f`. -/
theorem ramp_step_fires_at_threshold_witness :
    (DutyReachable scenario.duty_cycle ∧
      10 ≤ sub64 (system_get_ticks (deliver 10 scenario.sys)).1 scenario.start_time) ∧
    ∃ k arg, k ≤ 100 ∧ scenario.duty_cycle = ofNat k ∧
      arg = (if 100 < k + 1 then ofNat 0 else ofNat (k + 1)) ∧
      arg = (if F32.gt (F32.add scenario.duty_cycle one) hundred then zero
              else F32.add scenario.duty_cycle one) ∧
      (loop_iteration 10 0 scenario).pwm = scenario.pwm ++ [arg] ∧
      (loop_iteration 10 0 scenario).duty_cycle = arg :=
  ⟨⟨DutyReachable.init, by decide⟩,
    ramp_step_fires_at_threshold scenario 10 0 DutyReachable.init (by decide)⟩

/-- C2. When the tick value read in the loop condition is less than 10 past
the checkpoint, the iteration makes no call of `timer_pwm_set_duty_cycle` and
leaves `start_time` and `duty_cycle` as they were; and any number of further
polls with no tick event in between leave the whole state as it is. -/
theorem no_op_below_threshold (m : Main) (n1 n2 : Nat)
    (hlt : sub64 (system_get_ticks (deliver n1 m.sys)).1 m.start_time < 10) :
    (loop_iteration n1 n2 m).pwm = m.pwm ∧
      (loop_iteration n1 n2 m).start_time = m.start_time ∧
      (loop_iteration n1 n2 m).duty_cycle = m.duty_cycle ∧
      ∀ j n, polls n j (loop_iteration n1 n2 m) = loop_iteration n1 n2 m := by
  have hnd : ramp_due (deliver n1 m.sys).ticks m.start_time = false := by
    simpa [ramp_due, system_get_ticks] using hlt
  rw [loop_iteration_of_not_due n1 n2 m hnd]
  refine ⟨rfl, rfl, rfl, ?_⟩
  intro j n
  induction j with
  | zero => rfl
  | succ j ih =>
    have hnd0 : ramp_due (deliver 0 (deliver n1 m.sys)).ticks m.start_time = false := hnd
    show polls n j (loop_iteration 0 n { m with sys := deliver n1 m.sys }) = _
    rw [loop_iteration_of_not_due 0 n { m with sys := deliver n1 m.sys } hnd0]
    exact ih

/-- Witness for C2: checkpoint 0, duty cycle `0.0f`, nine tick events, so the
compared value is 9 and nothing changes. -/
theorem no_op_below_threshold_witness :
    sub64 (system_get_ticks (deliver 9 scenario.sys)).1 scenario.start_time < 10 ∧
    ((loop_iteration 9 0 scenario).pwm = scenario.pwm ∧
      (loop_iteration 9 0 scenario).start_time = scenario.start_time ∧
      (loop_iteration 9 0 scenario).duty_cycle = scenario.duty_cycle ∧
      ∀ j n, polls n j (loop_iteration 9 0 scenario) = loop_iteration 9 0 scenario) :=
  ⟨by decide, no_op_below_threshold scenario 9 0 (by decide)⟩

/-- C3, as the claim states it, fails: with checkpoint 0 and the counter at 10,
the step fires on the compared value 10, one tick event arrives before the
checkpoint is stored, and the checkpoint becomes 11. -/
theorem checkpoint_differs_from_compared_value :
    ramp_due (system_get_ticks (deliver 0 scenarioAtTen.sys)).1
        scenarioAtTen.start_time = true ∧
      (system_get_ticks (deliver 0 scenarioAtTen.sys)).1 = 10 ∧
      (loop_iteration 0 1 scenarioAtTen).start_time = 11 ∧
      (loop_iteration 0 1 scenarioAtTen).start_time ≠
        (system_get_ticks (deliver 0 scenarioAtTen.sys)).1 := by
  decide

/-- C3, amended. When a ramp step fires, the checkpoint after the iteration is
the value returned by the second read of the counter, which is the compared
value plus the number of tick events delivered between the two reads, in
`uint64_t` arithmetic; it is the compared value when no tick event arrives
between the two reads. -/
theorem checkpoint_is_second_read (m : Main) (n1 n2 : Nat)
    (hw : m.sys.ticks < 2 ^ 64)
    (hdue : ramp_due (system_get_ticks (deliver n1 m.sys)).1 m.start_time = true) :
    (loop_iteration n1 n2 m).start_time =
        (system_get_ticks (deliver n2 (deliver n1 m.sys))).1 ∧
      (loop_iteration n1 n2 m).start_time =
        ((system_get_ticks (deliver n1 m.sys)).1 + n2) % 2 ^ 64 ∧
      (n2 = 0 → (loop_iteration n1 n2 m).start_time =
        (system_get_ticks (deliver n1 m.sys)).1) := by
  have hdue2 : ramp_due (deliver n1 m.sys).ticks m.start_time = true := hdue
  have h1 : (deliver n1 m.sys).ticks < 2 ^ 64 := by
    rw [deliver_ticks_mod n1 m.sys hw]
    exact Nat.mod_lt _ (by norm_num)
  rw [loop_iteration_of_due n1 n2 m hdue2]
  refine ⟨rfl, ?_, ?_⟩
  · exact deliver_ticks_mod n2 _ h1
  · intro h0
    subst h0
    rfl

/-- Witness for the amended C3: checkpoint 0, compared value 10, no tick event
before the checkpoint is stored, so the checkpoint becomes 10. -/
theorem checkpoint_is_second_read_witness :
    (scenarioAtTen.sys.ticks < 2 ^ 64 ∧
      ramp_due (system_get_ticks (deliver 0 scenarioAtTen.sys)).1
        scenarioAtTen.start_time = true) ∧
    ((loop_iteration 0 0 scenarioAtTen).start_time =
        (system_get_ticks (deliver 0 (deliver 0 scenarioAtTen.sys))).1 ∧
      (loop_iteration 0 0 scenarioAtTen).start_time =
        ((system_get_ticks (deliver 0 scenarioAtTen.sys)).1 + 0) % 2 ^ 64 ∧
      (0 = 0 → (loop_iteration 0 0 scenarioAtTen).start_time =
        (system_get_ticks (deliver 0 scenarioAtTen.sys)).1)) :=
  ⟨⟨by decide, by decide⟩,
    checkpoint_is_second_read scenarioAtTen 0 0 (by decide) (by decide)⟩

/-- C4. Starting from `0.0f`, `k` fired steps with `k < 101` give the duty
cycle `k` exactly, 101 fired steps give `0.0f` again, and a step fired at
`100.0f` gives `0.0f`, which is neither `101.0f` nor `100.0f`. -/
theorem ramp_cyclic_period_101 (k : Nat) (hk : k < 101) :
    ramp_steps k zero = ofNat k ∧
      ramp_steps 101 zero = zero ∧
      ramp_step hundred = zero ∧
      ramp_step hundred ≠ ofNat 101 ∧
      ramp_step hundred ≠ hundred := by
  refine ⟨?_, ?_, by decide, by decide, by decide⟩
  · have h := ramp_steps_ofNat k 0 (by omega) (by omega)
    have hne : ¬ (0 + k = 101) := by omega
    rw [if_neg hne, Nat.zero_add] at h
    exact h
  · exact ramp_steps_ofNat 101 0 (by omega) (by omega)

/-- Witness for C4: one hundred fired steps give `100.0f`. -/
theorem ramp_cyclic_period_101_witness :
    100 < 101 ∧
    (ramp_steps 100 zero = ofNat 100 ∧
      ramp_steps 101 zero = zero ∧
      ramp_step hundred = zero ∧
      ramp_step hundred ≠ ofNat 101 ∧
      ramp_step hundred ≠ hundred) :=
  ⟨by decide, ramp_cyclic_period_101 100 (by decide)⟩

/-- C5. In every execution of `main` (any number of loop iterations under any
interrupt schedule), every argument passed to `timer_pwm_set_duty_cycle`, the
initial call included, lies in the closed range from `0.0f` to `100.0f`, and so
does `duty_cycle` in the state reached. -/
theorem pwm_output_in_range (n0 : Nat) (sched : List (Nat × Nat)) (x : F32)
    (hx : x ∈ (main_run n0 sched).pwm) :
    (F32.le zero x = true ∧ F32.le x hundred = true) ∧
      F32.le zero (main_run n0 sched).duty_cycle = true ∧
      F32.le (main_run n0 sched).duty_cycle hundred = true := by
  have hinit : ∀ y ∈ (main_init n0).pwm, ∃ k, k ≤ 100 ∧ y = ofNat k := by
    intro y hy
    exact ⟨0, by omega, List.mem_singleton.mp hy⟩
  have hinv := foldl_duty_pwm sched (main_init n0) ⟨0, by omega, rfl⟩ hinit
  obtain ⟨k, hk, hxk⟩ := hinv.2 x hx
  obtain ⟨j, hj, hdj⟩ := hinv.1
  have hdj2 : (main_run n0 sched).duty_cycle = ofNat j := hdj
  rw [hxk, hdj2]
  exact ⟨ofNat_range k hk, ofNat_range j hj⟩

/-- Witness for C5: the call with `1.0f` made by the first fired step. -/
theorem pwm_output_in_range_witness :
    one ∈ (main_run 0 [(10, 0)]).pwm ∧
    ((F32.le zero one = true ∧ F32.le one hundred = true) ∧
      F32.le zero (main_run 0 [(10, 0)]).duty_cycle = true ∧
      F32.le (main_run 0 [(10, 0)]).duty_cycle hundred = true) :=
  ⟨by decide, pwm_output_in_range 0 [(10, 0)] one (by decide)⟩

/-- C6. For a checkpoint `C` below `2 ^ 64` and a true elapsed duration `e` of
at most `2 ^ 63`, with the counter at `T = (C + e) mod 2 ^ 64`, the `uint64_t`
subtraction of the loop condition gives `e`, so the condition holds, and the
iteration fires, exactly when `e` is at least 10. -/
theorem elapsed_wraparound_safe (C e : Nat) (hC : C < 2 ^ 64) (he : e ≤ 2 ^ 63) :
    sub64 ((C + e) % 2 ^ 64) C = e ∧
      (ramp_due ((C + e) % 2 ^ 64) C = true ↔ 10 ≤ e) ∧
      ∀ (m : Main) (n1 n2 : Nat), m.start_time = C →
        (system_get_ticks (deliver n1 m.sys)).1 = (C + e) % 2 ^ 64 →
        ((loop_iteration n1 n2 m).pwm = m.pwm ++ [ramp_step m.duty_cycle] ↔ 10 ≤ e) := by
  have hsub : sub64 ((C + e) % 2 ^ 64) C = e := sub64_wrap C e hC (by omega)
  have hdue : ramp_due ((C + e) % 2 ^ 64) C = true ↔ 10 ≤ e := by
    simp only [ramp_due, hsub, decide_eq_true_eq]
  refine ⟨hsub, hdue, ?_⟩
  intro m n1 n2 hc hT
  have hT2 : (deliver n1 m.sys).ticks = (C + e) % 2 ^ 64 := hT
  cases hd : ramp_due (deliver n1 m.sys).ticks m.start_time with
  | true =>
    rw [loop_iteration_of_due n1 n2 m hd]
    rw [hT2, hc] at hd
    exact ⟨fun _ => hdue.mp hd, fun _ => rfl⟩
  | false =>
    rw [loop_iteration_of_not_due n1 n2 m hd]
    rw [hT2, hc] at hd
    constructor
    · intro h
      have := congrArg List.length h
      simp at this
    · intro h
      rw [hdue.mpr h] at hd
      exact absurd hd (by decide)

/-- Witness for C6: checkpoint `2 ^ 64 - 5` and elapsed duration 10, so the
counter has wrapped to 5. -/
theorem elapsed_wraparound_safe_witness :
    (2 ^ 64 - 5 < 2 ^ 64 ∧ 10 ≤ 2 ^ 63) ∧
    (sub64 ((2 ^ 64 - 5 + 10) % 2 ^ 64) (2 ^ 64 - 5) = 10 ∧
      (ramp_due ((2 ^ 64 - 5 + 10) % 2 ^ 64) (2 ^ 64 - 5) = true ↔ 10 ≤ 10) ∧
      ∀ (m : Main) (n1 n2 : Nat), m.start_time = 2 ^ 64 - 5 →
        (system_get_ticks (deliver n1 m.sys)).1 = (2 ^ 64 - 5 + 10) % 2 ^ 64 →
        ((loop_iteration n1 n2 m).pwm = m.pwm ++ [ramp_step m.duty_cycle] ↔ 10 ≤ 10)) :=
  ⟨⟨by decide, by decide⟩, elapsed_wraparound_safe (2 ^ 64 - 5) 10 (by decide) (by decide)⟩

/-! ## The tick counter -/

/-- C7. From a counter value `v`, after any sequence of events that holds `N`
invocations of `sys_tick_handler` (and any number of reads in between),
`system_get_ticks` returns `v + N` modulo `2 ^ 64`, which is `v + N` when that
is below `2 ^ 64`; one invocation adds exactly 1 in that arithmetic, and
`system_get_ticks` leaves the counter as it is. -/
theorem tick_increment_exact (v : Nat) (hv : v < 2 ^ 64) (es : List Event) :
    (system_get_ticks (run { ticks := v } es).1).1 = (v + tickCount es) % 2 ^ 64 ∧
      (v + tickCount es < 2 ^ 64 →
        (system_get_ticks (run { ticks := v } es).1).1 = v + tickCount es) ∧
      (sys_tick_handler { ticks := v }).ticks = (v + 1) % 2 ^ 64 ∧
      (v + 1 < 2 ^ 64 → (sys_tick_handler { ticks := v }).ticks = v + 1) ∧
      (system_get_ticks { ticks := v }).2 = { ticks := v } ∧
      (system_get_ticks (run { ticks := v } es).1).2 = (run { ticks := v } es).1 := by
  have h1 := foldl_step_ticks_mod es ({ ticks := v }, []) hv
  refine ⟨h1, ?_, rfl, ?_, rfl, rfl⟩
  · intro h
    exact foldl_step_ticks es ({ ticks := v }, []) h
  · intro h
    exact Nat.mod_eq_of_lt h

/-- Witness for C7: from the counter value 7, two invocations of the handler
with a read in between. -/
theorem tick_increment_exact_witness :
    7 < 2 ^ 64 ∧
    ((system_get_ticks (run { ticks := 7 } [Event.tick, Event.read, Event.tick]).1).1 =
        (7 + tickCount [Event.tick, Event.read, Event.tick]) % 2 ^ 64 ∧
      (7 + tickCount [Event.tick, Event.read, Event.tick] < 2 ^ 64 →
        (system_get_ticks (run { ticks := 7 } [Event.tick, Event.read, Event.tick]).1).1 =
          7 + tickCount [Event.tick, Event.read, Event.tick]) ∧
      (sys_tick_handler { ticks := 7 }).ticks = (7 + 1) % 2 ^ 64 ∧
      (7 + 1 < 2 ^ 64 → (sys_tick_handler { ticks := 7 }).ticks = 7 + 1) ∧
      (system_get_ticks { ticks := 7 }).2 = { ticks := 7 } ∧
      (system_get_ticks (run { ticks := 7 } [Event.tick, Event.read, Event.tick]).1).2 =
        (run { ticks := 7 } [Event.tick, Event.read, Event.tick]).1) :=
  ⟨by decide, tick_increment_exact 7 (by decide) [Event.tick, Event.read, Event.tick]⟩

/-- C8, as the claim states it, fails: with the counter at `2 ^ 64 - 1`, a
read, one `sys_tick_handler` invocation and a second read return `2 ^ 64 - 1`
and then `0`. -/
theorem reads_decrease_at_wrap :
    (run { ticks := 2 ^ 64 - 1 } [Event.read, Event.tick, Event.read]).2 =
        [2 ^ 64 - 1, 0] ∧
      ¬ List.Pairwise (fun a b => a ≤ b)
        (run { ticks := 2 ^ 64 - 1 } [Event.read, Event.tick, Event.read]).2 := by
  decide

/-- C8, amended. From a counter value `v` and for a sequence of events whose
`N` invocations of `sys_tick_handler` do not take the counter past its
maximum (`v + N < 2 ^ 64`), every read returns at least what every earlier
read returned, and the counter after any prefix of the sequence is at most the
counter after the whole sequence. -/
theorem reads_monotone_without_wrap (v : Nat) (es : List Event)
    (h : v + tickCount es < 2 ^ 64) :
    List.Pairwise (fun a b => a ≤ b) (run { ticks := v } es).2 ∧
      ∀ es1 es2, es = es1 ++ es2 →
        (run { ticks := v } es1).1.ticks ≤ (run { ticks := v } es).1.ticks := by
  refine ⟨foldl_step_reads es ({ ticks := v }, []) h List.Pairwise.nil ?_, ?_⟩
  · intro x hx
    cases hx
  · intro es1 es2 hes
    subst hes
    rw [tickCount_append] at h
    have h1 : (run { ticks := v } es1).1.ticks = v + tickCount es1 :=
      foldl_step_ticks es1 ({ ticks := v }, []) (by show v + tickCount es1 < 2 ^ 64; omega)
    have h2 : (run { ticks := v } (es1 ++ es2)).1.ticks = v + tickCount (es1 ++ es2) :=
      foldl_step_ticks (es1 ++ es2) ({ ticks := v }, [])
        (by rw [tickCount_append]; show v + (tickCount es1 + tickCount es2) < 2 ^ 64; omega)
    rw [h1, h2, tickCount_append]
    omega

/-- Witness for the amended C8: from the counter value 7, a read, one
invocation of the handler and a second read. -/
theorem reads_monotone_without_wrap_witness :
    7 + tickCount [Event.read, Event.tick, Event.read] < 2 ^ 64 ∧
    (List.Pairwise (fun a b => a ≤ b)
        (run { ticks := 7 } [Event.read, Event.tick, Event.read]).2 ∧
      ∀ es1 es2, [Event.read, Event.tick, Event.read] = es1 ++ es2 →
        (run { ticks := 7 } es1).1.ticks ≤
          (run { ticks := 7 } [Event.read, Event.tick, Event.read]).1.ticks) :=
  ⟨by decide, reads_monotone_without_wrap 7 [Event.read, Event.tick, Event.read] (by decide)⟩

/-- C10. In an execution of `main` in which the counter does not wrap (so that
successive reads are non-decreasing), the checkpoint stored by a fired step is
at least the tick value compared in that step, and the tick values compared at
two consecutive fired steps differ by at least 10. -/
theorem ramp_steps_min_spacing (n0 : Nat) (sched : List (Nat × Nat))
    (h : n0 + totalTicks sched < 2 ^ 64) :
    List.Chain' (fun a b => a + 10 ≤ b) (main_run n0 sched).fired ∧
      ∀ pre n1 n2 post, sched = pre ++ (n1, n2) :: post →
        ramp_due (system_get_ticks (deliver n1 (main_run n0 pre).sys)).1
          (main_run n0 pre).start_time = true →
        (system_get_ticks (deliver n1 (main_run n0 pre).sys)).1 ≤
          (loop_iteration n1 n2 (main_run n0 pre)).start_time := by
  have hinit := main_init_inv n0 (by omega)
  refine ⟨(foldl_inv sched (main_init n0) hinit.1 (by rw [hinit.2]; exact h)).1.2.2, ?_⟩
  intro pre n1 n2 post hs hdue
  subst hs
  rw [totalTicks_append, totalTicks_cons] at h
  have hpre := foldl_inv pre (main_init n0) hinit.1 (by rw [hinit.2]; omega)
  rw [hinit.2] at hpre
  have hpre2 : (main_run n0 pre).sys.ticks ≤ n0 + totalTicks pre := hpre.2
  have hdue2 : ramp_due (deliver n1 (main_run n0 pre).sys).ticks
      (main_run n0 pre).start_time = true := hdue
  rw [loop_iteration_of_due n1 n2 _ hdue2]
  show (deliver n1 (main_run n0 pre).sys).ticks ≤
    (deliver n2 (deliver n1 (main_run n0 pre).sys)).ticks
  have e1 : (deliver n1 (main_run n0 pre).sys).ticks = (main_run n0 pre).sys.ticks + n1 :=
    deliver_ticks n1 _ (by simp only at h; omega)
  rw [deliver_ticks n2 _ (by rw [e1]; simp only at h; omega)]
  omega

/-- Witness for C10: three tick events before the loop, then four iterations of
which the second and the fourth fire, on the compared values 13 and 29. -/
theorem ramp_steps_min_spacing_witness :
    3 + totalTicks [(5, 0), (5, 1), (3, 0), (12, 0)] < 2 ^ 64 ∧
    (List.Chain' (fun a b => a + 10 ≤ b)
        (main_run 3 [(5, 0), (5, 1), (3, 0), (12, 0)]).fired ∧
      ∀ pre n1 n2 post, [(5, 0), (5, 1), (3, 0), (12, 0)] = pre ++ (n1, n2) :: post →
        ramp_due (system_get_ticks (deliver n1 (main_run 3 pre).sys)).1
          (main_run 3 pre).start_time = true →
        (system_get_ticks (deliver n1 (main_run 3 pre).sys)).1 ≤
          (loop_iteration n1 n2 (main_run 3 pre)).start_time) :=
  ⟨by decide, ramp_steps_min_spacing 3 [(5, 0), (5, 1), (3, 0), (12, 0)] (by decide)⟩

end Firmware
